import Mathlib

/-!
# Verification of the vite-plugin-token-shaker analysis-and-rewrite engine

Shallow embedding of the plugin's core engine (variable discovery, usage
analysis, mangle/inline decision, multi-file transformation).  Text is
modelled as `List Char`; the plugin's three regular expressions are
embedded as hand-written scanners reproducing the JS backtracking
behaviour of those exact patterns.  Registries (`Map<string, Token>`)
are insertion-ordered association lists, matching JS `Map` iteration
order.
-/

namespace TokenShaker

/-- JS `\s` on the ASCII range: space, tab, newline, carriage return,
form feed, vertical tab. -/
def jsSpace (c : Char) : Bool :=
  c = ' ' || c = '\t' || c = '\n' || c = '\r' || c = '\x0c' || c = '\x0b'

/-- JS `\w`: ASCII letters, digits, underscore. -/
def isWordChar (c : Char) : Bool :=
  c.isAlpha || c.isDigit || c = '_'

/-- The character class `[\w-]` used in variable names. -/
def isWordDash (c : Char) : Bool :=
  isWordChar c || c = '-'

/-- JS `String.prototype.trim` restricted to the ASCII whitespace set. -/
def trimJs (l : List Char) : List Char :=
  ((l.dropWhile jsSpace).reverse.dropWhile jsSpace).reverse

/-- `Token` record from the source (`interface Token`). -/
structure Token where
  value : String
  usageCount : Nat
  setElsewhere : Bool
  mangledName : Option String
  isAlias : Option Bool
  emitDeclaration : Bool
deriving DecidableEq, Repr

/-- The registry `Map<string, Token>`: insertion-ordered association list. -/
abbrev Registry := List (String × Token)

/-- `registry.get(name)`: first binding of `name`. -/
def lookup : Registry → String → Option Token
  | [], _ => none
  | p :: rest, name => if p.1 = name then some p.2 else lookup rest name

/-- In-place mutation of the token bound to `name` (`registry.get(name)!.field = ...`). -/
def updateTok (reg : Registry) (name : String) (f : Token → Token) : Registry :=
  reg.map (fun p => if p.1 = name then (p.1, f p.2) else p)

/-- `LayerSpan` from the source; `endPos` is the source's `end` field. -/
structure LayerSpan where
  start : Nat
  endPos : Nat
  content : List Char
deriving DecidableEq, Repr

/-- Match of `VAR_REF_REGEX = /var\(\s*(--[\w-]+)(?:\s*,\s*([^)]+))?\s*\)/`
anchored at the head of `l`.  Returns `(name, fallback, rest)` with `rest`
the suffix after the match.  Reproduces the backtracking of this exact
pattern: the optional fallback group is attempted when a comma follows,
and on its failure the whole attempt fails (the no-fallback branch then
requires `)` where the comma stands). -/
def matchVarRef (l : List Char) : Option (String × Option String × List Char) :=
  match l with
  | 'v' :: 'a' :: 'r' :: '(' :: l1 =>
    let l2 := l1.dropWhile jsSpace
    match l2 with
    | '-' :: '-' :: l3 =>
      let nm := l3.takeWhile isWordDash
      let l4 := l3.dropWhile isWordDash
      if nm.isEmpty then none
      else
        let name := String.mk ('-' :: '-' :: nm)
        let l5 := l4.dropWhile jsSpace
        match l5 with
        | ',' :: l6 =>
          let l7 := l6.dropWhile jsSpace
          let fb := l7.takeWhile (fun c => ¬ c = ')')
          let l8 := l7.dropWhile (fun c => ¬ c = ')')
          if fb.isEmpty then none
          else
            match l8 with
            | ')' :: l9 => some (name, some (String.mk fb), l9)
            | _ => none
        | ')' :: l9 => some (name, none, l9)
        | _ => none
    | _ => none
  | _ => none

/-- Match of `VAR_DEF_REGEX = /(--[\w-]+)\s*:\s*([^;{}]+);?/` anchored at
the head of `l`.  Returns `(name, rawValue, rest)`.  The backtracking of
`\s*([^;{}]+)` is reproduced: when only whitespace stands before the
terminator, the greedy `\s*` gives back one character so that the value
group captures a single whitespace character. -/
def matchVarDef (l : List Char) : Option (String × String × List Char) :=
  match l with
  | '-' :: '-' :: l1 =>
    let nm := l1.takeWhile isWordDash
    let l2 := l1.dropWhile isWordDash
    if nm.isEmpty then none
    else
      let name := String.mk ('-' :: '-' :: nm)
      let l3 := l2.dropWhile jsSpace
      match l3 with
      | ':' :: l4 =>
        let ws := l4.takeWhile jsSpace
        let l5 := l4.dropWhile jsSpace
        let isTerm : Char → Bool := fun c => c = ';' || c = '{' || c = '}'
        let v := l5.takeWhile (fun c => ¬ isTerm c)
        let l6 := l5.dropWhile (fun c => ¬ isTerm c)
        if v.isEmpty then
          match ws.getLast? with
          | some w =>
            let rest := match l5 with
              | ';' :: l7 => l7
              | _ => l5
            some (name, String.mk [w], rest)
          | none => none
        else
          let rest := match l6 with
            | ';' :: l7 => l7
            | _ => l6
          some (name, String.mk v, rest)
      | _ => none
  | _ => none

/-- Match of `LAYER_TOKENS_REGEX = /@layer\s+tokens\s*\{/` anchored at the
head of `l`.  Returns the suffix after the opening brace. -/
def matchLayerOpen (l : List Char) : Option (List Char) :=
  match l with
  | '@' :: 'l' :: 'a' :: 'y' :: 'e' :: 'r' :: l1 =>
    let ws := l1.takeWhile jsSpace
    let l2 := l1.dropWhile jsSpace
    if ws.isEmpty then none
    else
      match l2 with
      | 't' :: 'o' :: 'k' :: 'e' :: 'n' :: 's' :: l3 =>
        let l4 := l3.dropWhile jsSpace
        match l4 with
        | '{' :: l5 => some l5
        | _ => none
      | _ => none
  | _ => none

/-- `VAR_ONLY_REGEX = /^\s*var\(\s*--[\w-]+\s*(?:,\s*[^)]+)?\)\s*$/` as an
anchored whole-string test (the alias test). -/
def varOnlyTest (s : String) : Bool :=
  let l := s.data.dropWhile jsSpace
  match l with
  | 'v' :: 'a' :: 'r' :: '(' :: l1 =>
    let l2 := l1.dropWhile jsSpace
    match l2 with
    | '-' :: '-' :: l3 =>
      let nm := l3.takeWhile isWordDash
      let l4 := l3.dropWhile isWordDash
      if nm.isEmpty then false
      else
        let l5 := l4.dropWhile jsSpace
        match l5 with
        | ',' :: l6 =>
          let l7 := l6.dropWhile jsSpace
          let fb := l7.takeWhile (fun c => ¬ c = ')')
          let l8 := l7.dropWhile (fun c => ¬ c = ')')
          if fb.isEmpty then false
          else
            match l8 with
            | ')' :: l9 => (l9.dropWhile jsSpace).isEmpty
            | _ => false
        | ')' :: l9 => (l9.dropWhile jsSpace).isEmpty
        | _ => false
    | _ => false
  | _ => false

/-- One segment of a text split along `VAR_REF_REGEX` matches: either a
literal character or one whole match (original text, name, fallback). -/
inductive Seg where
  | lit (c : Char)
  | ref (orig : List Char) (name : String) (fb : Option String)
deriving DecidableEq, Repr

/-- Global scan of `VAR_REF_REGEX` (the shared behaviour of `matchAll` and
`replace`): leftmost matches, resuming after each match.  `fuel` bounds the
number of scanning steps; each step consumes at least one character, so
`l.length + 1` is always sufficient. -/
def scanSegsGo : Nat → List Char → List Seg
  | 0, l => l.map Seg.lit
  | _ + 1, [] => []
  | fuel + 1, c :: cs =>
    match matchVarRef (c :: cs) with
    | some (name, fb, rest) =>
      let consumed := (c :: cs).length - rest.length
      Seg.ref ((c :: cs).take consumed) name fb :: scanSegsGo fuel rest
    | none => Seg.lit c :: scanSegsGo fuel cs

/-- Split `l` along all `VAR_REF_REGEX` matches. -/
def scanSegs (l : List Char) : List Seg :=
  scanSegsGo (l.length + 1) l

/-- The names captured by all `VAR_REF_REGEX` matches of `l`, in order
(`code.matchAll(VAR_REF_REGEX)`, group 1). -/
def scanRefNames (l : List Char) : List String :=
  (scanSegs l).filterMap (fun s =>
    match s with
    | Seg.ref _ n _ => some n
    | Seg.lit _ => none)

/-- `String.prototype.replace(VAR_REF_REGEX, cb)`: rebuild the text,
replacing each match by `f orig name fb`. -/
def rejoinSegs (f : List Char → String → Option String → List Char)
    (segs : List Seg) : List Char :=
  segs.foldr (fun s acc =>
    match s with
    | Seg.lit c => c :: acc
    | Seg.ref o n fb => f o n fb ++ acc) []

/-- All `VAR_DEF_REGEX` matches of `l` in order: `(name, rawValue)` pairs. -/
def scanDefsGo : Nat → List Char → List (String × String)
  | 0, _ => []
  | _ + 1, [] => []
  | fuel + 1, c :: cs =>
    match matchVarDef (c :: cs) with
    | some (name, v, rest) => (name, v) :: scanDefsGo fuel rest
    | none => scanDefsGo fuel cs

def scanDefs (l : List Char) : List (String × String) :=
  scanDefsGo (l.length + 1) l

/-- `findMatchingBrace(code, start)`: depth-count from `start` (depth
begins at 1); index of the balancing `}`, or `code.length` if unbalanced. -/
def findMatchingBrace (code : List Char) (start : Nat) : Nat :=
  go (code.drop start) start 1
where
  go : List Char → Nat → Nat → Nat
    | [], _, _ => code.length
    | c :: cs, i, d =>
      let d' := if c = '{' then d + 1 else if c = '}' then d - 1 else d
      if d' = 0 then i else go cs (i + 1) d'

/-- All `LAYER_TOKENS_REGEX` match positions: `(startIdx, contentStart)`
pairs, scanning left to right and resuming after each match. -/
def findLayerOpensGo : Nat → List Char → Nat → List (Nat × Nat)
  | 0, _, _ => []
  | _ + 1, [], _ => []
  | fuel + 1, c :: cs, i =>
    match matchLayerOpen (c :: cs) with
    | some rest =>
      let consumed := (c :: cs).length - rest.length
      (i, i + consumed) :: findLayerOpensGo fuel rest (i + consumed)
    | none => findLayerOpensGo fuel cs (i + 1)

/-- `findTokensLayers(code)`. -/
def findTokensLayers (code : List Char) : List LayerSpan :=
  (findLayerOpensGo (code.length + 1) code 0).map (fun p =>
    let contentEnd := findMatchingBrace code p.2
    { start := p.1
      endPos := contentEnd + 1
      content := (code.drop p.2).take (contentEnd - p.2) })

/-- JS `str.slice(0, s) + repl + str.slice(e)` (both slice bounds clamp). -/
def spliceStr (l : List Char) (s e : Nat) (repl : List Char) : List Char :=
  l.take s ++ repl ++ l.drop e

/-- `extractTokensVariables`: one `VAR_DEF_REGEX` declaration seen inside a
tokens layer.  First-seen value wins; a later declaration only backfills a
missing `isAlias`. -/
def extractDef (reg : Registry) (nv : String × String) : Registry :=
  let varValue := String.mk (trimJs nv.2.data)
  let al := varOnlyTest varValue
  match lookup reg nv.1 with
  | none =>
    reg ++ [(nv.1,
      { value := varValue, usageCount := 0, setElsewhere := false,
        mangledName := none, isAlias := some al, emitDeclaration := false })]
  | some _ =>
    updateTok reg nv.1 (fun t =>
      match t.isAlias with
      | none => { t with isAlias := some al }
      | some _ => t)

/-- `extractTokensVariables(code, registry)`. -/
def extractTokensVariables (code : List Char) (reg : Registry) : Registry :=
  (findTokensLayers code).foldl
    (fun r layer => (scanDefs layer.content).foldl extractDef r) reg

/-- The blanking step of `markVariablesSetElsewhere`: every tokens-layer
span replaced by `" ".repeat(end - start)` via the JS splice. -/
def blankTokensLayers (code : List Char) : List Char :=
  (findTokensLayers code).foldl
    (fun acc span =>
      spliceStr acc span.start span.endPos
        (List.replicate (span.endPos - span.start) ' '))
    code

/-- The test `new RegExp(escapeRegex(name) + "\\s*:").test(text)`:
does `name` occur anywhere, followed by optional whitespace and a colon?
(For names drawn from `VAR_DEF_REGEX`, `escapeRegex` is the identity.) -/
def containsAssignGo (name : List Char) : Nat → List Char → Bool
  | 0, _ => false
  | _ + 1, [] => false
  | fuel + 1, c :: cs =>
    if name.isPrefixOf (c :: cs)
        && (((c :: cs).drop name.length).dropWhile jsSpace).head? = some ':' then
      true
    else
      containsAssignGo name fuel cs

def containsAssign (text : List Char) (name : String) : Bool :=
  containsAssignGo name.data (text.length + 1) text

/-- `markVariablesSetElsewhere(code, registry)`. -/
def markVariablesSetElsewhere (code : List Char) (reg : Registry) : Registry :=
  let blanked := blankTokensLayers code
  reg.map (fun p =>
    if containsAssign blanked p.1 then (p.1, { p.2 with setElsewhere := true })
    else p)

/-- State threaded through `countVariableUsage`: the registry plus the
`visited` set (shared across one top-level call). -/
structure CountSt where
  reg : Registry
  visited : List String
deriving DecidableEq, Repr

/-- One `VAR_REF_REGEX` match inside `countVariableUsage`: increment the
count of a registered name unconditionally; descend into its declared
value only when the name is not yet in `visited`. -/
def countStep (descend : List Char → CountSt → CountSt) (n : String)
    (st : CountSt) : CountSt :=
  match lookup st.reg n with
  | none => st
  | some tok =>
    let reg' := updateTok st.reg n
      (fun t => { t with usageCount := t.usageCount + 1 })
    let st1 : CountSt := { st with reg := reg' }
    if st1.visited.contains n then st1
    else descend tok.value.data { st1 with visited := n :: st1.visited }

/-- `countVariableUsage` with explicit recursion depth `fuel`; the visited
set bounds the real recursion depth by the number of registry entries, so
`reg.length + 1` fuel replicates the unbounded JS recursion (proved below). -/
def countDepth : Nat → List Char → CountSt → CountSt
  | 0, _, st => st
  | fuel + 1, code, st =>
    (scanRefNames code).foldl (fun s n => countStep (countDepth fuel) n s) st

/-- `countVariableUsage(code, registry)` (fresh `visited` per call). -/
def countVariableUsage (code : List Char) (reg : Registry) : Registry :=
  (countDepth (reg.length + 1) code { reg := reg, visited := [] }).reg

/-- `resetUsageCounts(registry)`. -/
def resetUsageCounts (reg : Registry) : Registry :=
  reg.map (fun p =>
    (p.1, { p.2 with usageCount := 0, mangledName := none,
                     emitDeclaration := false }))

/-- `resolveVariableValue` with `gas = 11 - depth`: the source checks
`depth > 10` and recurses at `depth + 1`, which is exactly `gas = 0` and
`gas - 1` here.  Structural recursion on `gas`. -/
def resolveGo (reg : Registry) : Nat → String → String
  | 0, varName => "var(" ++ varName ++ ")"
  | gas + 1, varName =>
    match lookup reg varName with
    | none => "var(" ++ varName ++ ")"
    | some tok =>
      String.mk (rejoinSegs
        (fun _ nested _ => (resolveGo reg gas nested).data)
        (scanSegs tok.value.data))

/-- `resolveVariableValue(varName, registry, depth)`. -/
def resolveVariableValue (varName : String) (reg : Registry)
    (depth : Nat) : String :=
  resolveGo reg (11 - depth) varName

/-- `counter.toString(36)` digit. -/
def base36Digit (d : Nat) : Char :=
  if d < 10 then Char.ofNat (48 + d) else Char.ofNat (87 + d)

def natToBase36Go : Nat → Nat → List Char
  | 0, _ => []
  | fuel + 1, n =>
    if n < 36 then [base36Digit n]
    else natToBase36Go fuel (n / 36) ++ [base36Digit (n % 36)]

/-- `n.toString(36)`. -/
def natToBase36 (n : Nat) : String :=
  String.mk (natToBase36Go (n + 1) n)

/-- JS truthiness of `registry.get(v)!.isAlias` (an `Option Bool`). -/
def aliasTruthy (o : Option Token) : Bool :=
  match o with
  | some t => t.isAlias = some true
  | none => false

/-- `generateMangledNames` grouping phase: group the names of all tokens
with nonzero usage by fully resolved value, in registry order (JS `Map`
insertion order). -/
def addToGroup : List (String × List String) → String → String →
    List (String × List String)
  | [], rv, n => [(rv, [n])]
  | (k, vs) :: rest, rv, n =>
    if k = rv then (k, vs ++ [n]) :: rest
    else (k, vs) :: addToGroup rest rv n

def groupByResolved (reg : Registry) : List (String × List String) :=
  reg.foldl (fun groups p =>
    if p.2.usageCount = 0 then groups
    else addToGroup groups (resolveVariableValue p.1 reg 0) p.1) []

/-- `generateMangledNames` decision phase for one value group.  The state
is the (mutated) registry and the mangled-name counter. -/
def processGroup (mPre : String) (st : Registry × Nat)
    (g : String × List String) : Registry × Nat :=
  let canonical :=
    ((g.2.find? (fun v => ¬ aliasTruthy (lookup st.1 v))).getD (g.2.headD ""))
  let totalUsage :=
    g.2.foldl (fun s v => s + ((lookup st.1 v).map (·.usageCount)).getD 0) 0
  let mangledName := mPre ++ natToBase36 st.2
  let valueLen := g.1.length
  let declarationCost := mangledName.length + 2 + valueLen + 1
  let referenceCost := 5 + mangledName.length + 1
  let mangleCost := declarationCost + totalUsage * referenceCost
  let inlineCost := totalUsage * valueLen
  if mangleCost < inlineCost then
    (g.2.foldl (fun r v => updateTok r v (fun t =>
        { t with mangledName := some mangledName,
                 emitDeclaration := decide (v = canonical) })) st.1,
     st.2 + 1)
  else
    (g.2.foldl (fun r v => updateTok r v (fun t =>
        { t with mangledName := none, emitDeclaration := false })) st.1,
     st.2)

/-- `generateMangledNames(registry, manglePrefix)`; returns the final
registry and the counter (number of mangled value groups). -/
def generateMangledNames (reg : Registry) (mPre : String) : Registry × Nat :=
  (groupByResolved reg).foldl (processGroup mPre) (reg, 0)

/-- `transformCode` declaration phase, one `VAR_DEF_REGEX` match of a
layer's content: `(declarations, emittedValues)` before and after. -/
def processDecl (reg : Registry) (acc : List String × List String)
    (nv : String × String) : List String × List String :=
  match lookup reg nv.1 with
  | none => acc
  | some tok =>
    if tok.usageCount = 0 then acc
    else if tok.setElsewhere then
      (acc.1 ++ [nv.1 ++ ": " ++ nv.2], acc.2)
    else
      match tok.mangledName with
      | some m =>
        let resolvedValue := resolveVariableValue nv.1 reg 0
        if tok.emitDeclaration && ¬ aliasTruthy (some tok) then
          if acc.2.contains resolvedValue then acc
          else (acc.1 ++ [m ++ ": " ++ resolvedValue], resolvedValue :: acc.2)
        else acc
      | none => acc

/-- `transformCode` declaration phase for one layer: rebuild the span as a
collapsed block (or empty text) and splice it into the running result. -/
def processLayer (reg : Registry) (acc : List Char × List String)
    (layer : LayerSpan) : List Char × List String :=
  let p := (scanDefs layer.content).foldl (processDecl reg) ([], acc.2)
  let newContent : List Char :=
    if p.1.isEmpty then []
    else ("@layer tokens\x7b:root\x7b" ++ String.intercalate ";" p.1
            ++ "\x7d\x7d").data
  (spliceStr acc.1 layer.start layer.endPos newContent, p.2)

/-- `transformCode` reference phase: the replacement for one
`VAR_REF_REGEX` match. -/
def replaceRef (reg : Registry) (orig : List Char) (name : String)
    (fb : Option String) : List Char :=
  match lookup reg name with
  | none => orig
  | some tok =>
    match tok.mangledName with
    | some m =>
      ("var(" ++ m ++ (match fb with
        | some f => ", " ++ f
        | none => "") ++ ")").data
    | none =>
      if ¬ tok.setElsewhere then (resolveVariableValue name reg 0).data
      else orig

/-- `transformCode(code, registry)`: layers processed last-to-first with a
per-asset `emittedValues` set, then a global reference replacement. -/
def transformCode (code : List Char) (reg : Registry) : List Char :=
  let layers := (findTokensLayers code).reverse
  let p := layers.foldl (processLayer reg) (code, [])
  rejoinSegs (replaceRef reg) (scanSegs p.1)

/-- The analysis loop of `generateBundle`: per file, mark setElsewhere and
then count usage. -/
def analyzeAll (assets : List (String × String)) (reg : Registry) : Registry :=
  assets.foldl
    (fun r a => countVariableUsage a.2.data
      (markVariablesSetElsewhere a.2.data r)) reg

/-- The whole-build pass of `generateBundle` over the bundle's CSS assets
(`(fileName, source)` pairs): clear registry, extract, reset, analyze
per file (setElsewhere then usage), decide, transform each asset. -/
def runPass (mPre : String) (assets : List (String × String)) :
    List (String × String) :=
  if assets.isEmpty then assets
  else
    let reg0 : Registry :=
      assets.foldl (fun r a => extractTokensVariables a.2.data r) []
    if reg0.isEmpty then assets
    else
      let reg2 := analyzeAll assets (resetUsageCounts reg0)
      let reg3 := (generateMangledNames reg2 mPre).1
      assets.map (fun a => (a.1, String.mk (transformCode a.2.data reg3)))

/-- Number of registry entries whose key is not yet in the visited set:
the bound the visited set puts on the usage-counting recursion depth. -/
def unvisited (st : CountSt) : Nat :=
  (st.reg.map Prod.fst).countP (fun k => ¬ st.visited.contains k)

/-- The usage count recorded for `name` (0 if unregistered). -/
def usageOf (st : CountSt) (name : String) : Nat :=
  ((lookup st.reg name).map (·.usageCount)).getD 0

/-- The analysis pipeline of `generateBundle` on a single asset, up to and
including usage counting (extract, reset, setElsewhere, count). -/
def analyzeOne (code : List Char) : Registry :=
  countVariableUsage code
    (markVariablesSetElsewhere code
      (resetUsageCounts (extractTokensVariables code [])))

/-- Concrete asset for the mangle/inline threshold: a `#ff0000` token
referenced exactly 50 times. -/
def thresholdAsset50 : String :=
  "@layer tokens\x7b:root\x7b--c: #ff0000;\x7d\x7d" ++
    String.join ((List.range 50).map (fun i =>
      "a" ++ toString i ++ "\x7bx:var(--c)\x7d"))

/-- Expected output for `thresholdAsset50`: all 50 sites inlined, no
declaration. -/
def thresholdExpected50 : String :=
  String.join ((List.range 50).map (fun i =>
    "a" ++ toString i ++ "\x7bx:#ff0000\x7d"))

/-- A token whose declared value is `#ff0000` with a given usage count. -/
def redTok (u : Nat) : Token :=
  { value := "#ff0000", usageCount := u, setElsewhere := false,
    mangledName := none, isAlias := some false, emitDeclaration := false }

/-- Concrete asset on which the pass is not idempotent: `--x`
(26-character value) and its alias `--y`; nested usage counting yields a
group total of 3 (mangled), while the transformed output retains only one
direct reference (inlined on a second pass). -/
def idemAsset : String :=
  "@layer tokens\x7b:root\x7b--x: abcdefghijklmnopqrstuvwxyz;--y: var(--x);\x7d\x7dbody\x7bcolor:var(--y)\x7d"

/-- First-pass output for `idemAsset`. -/
def idemOnce : String :=
  "@layer tokens\x7b:root\x7b--_0: abcdefghijklmnopqrstuvwxyz\x7d\x7dbody\x7bcolor:var(--_0)\x7d"

/-- Second-pass output for `idemAsset` (differs from `idemOnce`). -/
def idemTwice : String :=
  "body\x7bcolor:abcdefghijklmnopqrstuvwxyz\x7d"

end TokenShaker

namespace TokenShaker

/-! ## Basic registry lemmas -/

theorem lookup_cons (p : String × Token) (rest : Registry) (m : String) :
    lookup (p :: rest) m = if p.1 = m then some p.2 else lookup rest m := rfl

theorem updateTok_cons (p : String × Token) (rest : Registry) (name : String)
    (f : Token → Token) :
    updateTok (p :: rest) name f =
      (if p.1 = name then (p.1, f p.2) else p) :: updateTok rest name f := rfl

theorem lookup_eq_none_iff (reg : Registry) (name : String) :
    lookup reg name = none ↔ name ∉ reg.map Prod.fst := by
  induction reg with
  | nil => simp [lookup]
  | cons p rest ih =>
    rw [lookup_cons, List.map_cons, List.mem_cons]
    by_cases h : p.1 = name
    · rw [if_pos h]
      constructor
      · intro hc; exact absurd hc (Option.some_ne_none _)
      · intro hn; exact absurd (Or.inl h.symm) hn
    · rw [if_neg h, ih]
      constructor
      · intro hn hc
        rcases hc with hc | hc
        · exact h hc.symm
        · exact hn hc
      · intro hn hc; exact hn (Or.inr hc)

theorem lookup_updateTok_ne (reg : Registry) (name m : String) (f : Token → Token)
    (h : m ≠ name) : lookup (updateTok reg name f) m = lookup reg m := by
  induction reg with
  | nil => rfl
  | cons p rest ih =>
    rw [updateTok_cons]
    by_cases hp : p.1 = name
    · have h1 : ¬ p.1 = m := fun hq => h (hq ▸ hp)
      rw [if_pos hp, lookup_cons, lookup_cons, if_neg h1, if_neg h1]
      exact ih
    · rw [if_neg hp, lookup_cons, lookup_cons]
      by_cases hm : p.1 = m
      · rw [if_pos hm, if_pos hm]
      · rw [if_neg hm, if_neg hm]
        exact ih

theorem lookup_updateTok_self (reg : Registry) (name : String) (f : Token → Token) :
    lookup (updateTok reg name f) name = (lookup reg name).map f := by
  induction reg with
  | nil => rfl
  | cons p rest ih =>
    rw [updateTok_cons]
    by_cases hp : p.1 = name
    · rw [if_pos hp, lookup_cons, lookup_cons, if_pos hp, if_pos hp]
      rfl
    · rw [if_neg hp, lookup_cons, lookup_cons, if_neg hp, if_neg hp]
      exact ih

theorem updateTok_keys (reg : Registry) (name : String) (f : Token → Token) :
    (updateTok reg name f).map Prod.fst = reg.map Prod.fst := by
  unfold updateTok
  induction reg with
  | nil => rfl
  | cons p rest ih =>
    by_cases hp : p.1 = name <;> simp [hp, ih]

/-! ## C6: value resolution fallbacks -/

theorem resolveGo_lookup_none (reg : Registry) (gas : Nat) (varName : String)
    (h : lookup reg varName = none) :
    resolveGo reg gas varName = "var(" ++ varName ++ ")" := by
  cases gas with
  | zero => rfl
  | succ g => simp [resolveGo, h]

/-- C6: value resolution substitutes every nested reference by its own
resolved value recursively (at depth + 1); a call beyond the depth limit
(`depth > 10`) returns the unexpanded reference expression `var(name)`,
and a name absent from the registry also resolves to its own unexpanded
reference expression `var(name)` — in both cases a plain value, not an
error. -/
theorem C6_resolution (varName : String) (reg : Registry) (depth : Nat) :
    (10 < depth → resolveVariableValue varName reg depth = "var(" ++ varName ++ ")")
    ∧ (lookup reg varName = none →
        resolveVariableValue varName reg depth = "var(" ++ varName ++ ")")
    ∧ (∀ tok, lookup reg varName = some tok → depth ≤ 10 →
        resolveVariableValue varName reg depth =
          String.mk (rejoinSegs
            (fun _ nested _ => (resolveVariableValue nested reg (depth + 1)).data)
            (scanSegs tok.value.data))) := by
  refine ⟨?_, ?_, ?_⟩
  · intro h
    unfold resolveVariableValue
    rw [show 11 - depth = 0 by omega]
    rfl
  · intro h
    exact resolveGo_lookup_none reg _ varName h
  · intro tok htok hd
    unfold resolveVariableValue
    rw [show 11 - depth = (10 - depth) + 1 by omega]
    rw [show 11 - (depth + 1) = 10 - depth by omega]
    simp [resolveGo, htok]

/-- Witness for C6 at concrete inputs: an unregistered name at depth 0, the
depth cutoff at depth 11, and one recursive-substitution step on a registry
whose single entry references an unregistered variable. -/
theorem C6_resolution_witness :
    (10 < 11 ∧
      resolveVariableValue "--a" [] 11 = "var(" ++ "--a" ++ ")")
    ∧ (lookup ([] : Registry) "--a" = none ∧
      resolveVariableValue "--a" [] 0 = "var(" ++ "--a" ++ ")")
    ∧ (resolveVariableValue "--a"
        [("--a", { value := "var(--b)", usageCount := 1, setElsewhere := false,
                   mangledName := none, isAlias := some true,
                   emitDeclaration := false })] 0 =
        String.mk (rejoinSegs
          (fun _ nested _ =>
            (resolveVariableValue nested
              [("--a", { value := "var(--b)", usageCount := 1,
                         setElsewhere := false, mangledName := none,
                         isAlias := some true, emitDeclaration := false })]
              (0 + 1)).data)
          (scanSegs ("var(--b)" : String).data))) := by
  refine ⟨⟨by decide, (C6_resolution "--a" [] 11).1 (by decide)⟩,
          ⟨by decide, (C6_resolution "--a" [] 0).2.1 (by decide)⟩,
          (C6_resolution "--a"
            [("--a", { value := "var(--b)", usageCount := 1,
                       setElsewhere := false, mangledName := none,
                       isAlias := some true, emitDeclaration := false })] 0).2.2
            { value := "var(--b)", usageCount := 1, setElsewhere := false,
              mangledName := none, isAlias := some true,
              emitDeclaration := false } rfl (by decide)⟩

end TokenShaker

namespace TokenShaker

/-! ## C7: the blanked copy used by setElsewhere detection -/

theorem findLayerOpensGo_fst_le_snd (fuel : Nat) :
    ∀ (l : List Char) (i : Nat) (pr : Nat × Nat),
      pr ∈ findLayerOpensGo fuel l i → pr.1 ≤ pr.2 := by
  induction fuel with
  | zero => intro l i pr h; simp [findLayerOpensGo] at h
  | succ f ih =>
    intro l i pr h
    match l with
    | [] => simp [findLayerOpensGo] at h
    | c :: cs =>
      rw [findLayerOpensGo] at h
      cases hm : matchLayerOpen (c :: cs) with
      | some rest =>
        rw [hm] at h
        simp only [List.mem_cons] at h
        rcases h with h | h
        · subst h; exact Nat.le_add_right _ _
        · exact ih rest _ pr h
      | none =>
        rw [hm] at h
        exact ih cs _ pr h

theorem findMatchingBrace_go_ge (code : List Char) :
    ∀ (l : List Char) (i d : Nat),
      findMatchingBrace.go code l i d = code.length ∨
        i ≤ findMatchingBrace.go code l i d := by
  intro l
  induction l with
  | nil => intro i d; left; rfl
  | cons c cs ih =>
    intro i d
    rw [findMatchingBrace.go]
    by_cases h0 : (if c = '{' then d + 1 else if c = '}' then d - 1 else d) = 0
    · rw [if_pos h0]; right; exact Nat.le_refl i
    · rw [if_neg h0]
      rcases ih (i + 1) (if c = '{' then d + 1 else if c = '}' then d - 1 else d) with h | h
      · left; exact h
      · right; exact Nat.le_trans (Nat.le_succ i) h

theorem findTokensLayers_start_le (code : List Char) (sp : LayerSpan)
    (hsp : sp ∈ findTokensLayers code) (hend : sp.endPos ≤ code.length) :
    sp.start ≤ sp.endPos := by
  unfold findTokensLayers at hsp
  rcases List.mem_map.mp hsp with ⟨pr, hpr, heq⟩
  have h12 : pr.1 ≤ pr.2 := findLayerOpensGo_fst_le_snd _ _ _ _ hpr
  subst heq
  simp only at hend ⊢
  rcases findMatchingBrace_go_ge code (code.drop pr.2) pr.2 1 with h | h
  · unfold findMatchingBrace at hend ⊢
    omega
  · unfold findMatchingBrace at hend ⊢
    omega

theorem spliceStr_blank_length (l : List Char) (s e : Nat)
    (hse : s ≤ e) (hel : e ≤ l.length) :
    (spliceStr l s e (List.replicate (e - s) ' ')).length = l.length := by
  simp only [spliceStr, List.length_append, List.length_take,
    List.length_replicate, List.length_drop]
  omega

/-- C7 (amended): the blanked copy replaces each tokens-scope span by
whitespace of length `endPos - start`; whenever every span is balanced
(its `endPos` lies within the text), the blanked copy has exactly the
original length.  (An unbalanced span has `endPos = length + 1` and makes
the copy one character longer — see the counterexample.) -/
theorem C7_blanking (code : List Char)
    (h : ∀ sp ∈ findTokensLayers code, sp.endPos ≤ code.length) :
    (blankTokensLayers code).length = code.length := by
  unfold blankTokensLayers
  have hgen : ∀ (spans : List LayerSpan) (acc : List Char),
      (∀ sp ∈ spans, sp.start ≤ sp.endPos ∧ sp.endPos ≤ code.length) →
      acc.length = code.length →
      (spans.foldl (fun acc span =>
        spliceStr acc span.start span.endPos
          (List.replicate (span.endPos - span.start) ' ')) acc).length
        = code.length := by
    intro spans
    induction spans with
    | nil => intro acc _ hl; exact hl
    | cons sp rest ih =>
      intro acc hs hl
      rw [List.foldl_cons]
      refine ih _ (fun q hq => hs q (List.mem_cons_of_mem _ hq)) ?_
      have h1 := hs sp (List.mem_cons_self _ _)
      rw [spliceStr_blank_length acc sp.start sp.endPos h1.1 (by omega)]
      exact hl
  refine hgen _ code (fun sp hsp => ⟨?_, h sp hsp⟩) rfl
  exact findTokensLayers_start_le code sp hsp (h sp hsp)

/-- Witness for C7 on a concrete balanced asset. -/
theorem C7_blanking_witness :
    (∀ sp ∈ findTokensLayers
        ("@layer tokens\x7b--a: b;\x7dp\x7bcolor:red\x7d" : String).data,
      sp.endPos ≤ ("@layer tokens\x7b--a: b;\x7dp\x7bcolor:red\x7d" : String).data.length)
    ∧ (blankTokensLayers
        ("@layer tokens\x7b--a: b;\x7dp\x7bcolor:red\x7d" : String).data).length
      = ("@layer tokens\x7b--a: b;\x7dp\x7bcolor:red\x7d" : String).data.length := by
  refine ⟨by decide, C7_blanking _ (by decide)⟩

/-- C7 counterexample: for a tokens-scope block with unbalanced braces the
blanked copy is one character longer than the original text (the span's
`endPos` extends one past the end), so the claimed exact length equality
fails. -/
theorem C7_counterexample :
    ¬ ((blankTokensLayers ("@layer tokens\x7b--a: b;" : String).data).length
        = ("@layer tokens\x7b--a: b;" : String).data.length) := by
  decide

end TokenShaker

namespace TokenShaker

/-! ## C1: treatment of setElsewhere variables -/

/-- C1 counterexample: `--p` is declared in the tokens scope and assigned
elsewhere (`div` block), so `setElsewhere = true`, but it has zero
reference sites (`usageCount = 0`); the pass drops its tokens-scope
declaration entirely instead of emitting it with its original name and
value text, so the claim fails at this input. -/
theorem C1_counterexample :
    ((lookup
        (countVariableUsage
          ("@layer tokens\x7b:root\x7b--p: red;\x7d\x7ddiv\x7b--p: blue\x7d" : String).data
          (markVariablesSetElsewhere
            ("@layer tokens\x7b:root\x7b--p: red;\x7d\x7ddiv\x7b--p: blue\x7d" : String).data
            (resetUsageCounts
              (extractTokensVariables
                ("@layer tokens\x7b:root\x7b--p: red;\x7d\x7ddiv\x7b--p: blue\x7d" : String).data
                []))))
        "--p").map (fun t => (t.setElsewhere, t.usageCount)) = some (true, 0))
    ∧ runPass "--_"
        [("b.css", "@layer tokens\x7b:root\x7b--p: red;\x7d\x7ddiv\x7b--p: blue\x7d")]
      = [("b.css", "div\x7b--p: blue\x7d")] := by
  decide

/-- C1 (amended): a `setElsewhere` variable is never inlined and its
declaration text is never rewritten: with `usageCount ≥ 1` its tokens-scope
declaration is emitted with the original name and original captured value
text; with `usageCount = 0` it is dropped like any unused variable; a
reference site is left unchanged whenever the variable's value-group was
not selected for mangling, and is rewritten to the synthetic name when it
was. -/
theorem C1_preservation (reg : Registry) (acc : List String × List String)
    (nv : String × String) (tok : Token)
    (h : lookup reg nv.1 = some tok) (hse : tok.setElsewhere = true) :
    (tok.usageCount ≠ 0 →
      processDecl reg acc nv = (acc.1 ++ [nv.1 ++ ": " ++ nv.2], acc.2))
    ∧ (tok.usageCount = 0 → processDecl reg acc nv = acc)
    ∧ (∀ (orig : List Char) (fb : Option String), tok.mangledName = none →
        replaceRef reg orig nv.1 fb = orig)
    ∧ (∀ (orig : List Char) (fb : Option String) (m : String),
        tok.mangledName = some m →
        replaceRef reg orig nv.1 fb =
          ("var(" ++ m ++ (match fb with
            | some f => ", " ++ f
            | none => "") ++ ")").data) := by
  refine ⟨?_, ?_, ?_, ?_⟩
  · intro hu
    simp only [processDecl, h]
    simp [hu, hse]
  · intro hu
    simp only [processDecl, h]
    simp [hu]
  · intro orig fb hm
    simp only [replaceRef, h]
    simp [hm, hse]
  · intro orig fb m hm
    simp only [replaceRef, h]
    simp [hm]

/-- Witness for C1 at a concrete registry: a used setElsewhere variable's
declaration is pushed verbatim and its unmangled reference kept as-is. -/
theorem C1_preservation_witness :
    processDecl
      [("--p", { value := "red", usageCount := 1, setElsewhere := true,
                 mangledName := none, isAlias := some false,
                 emitDeclaration := false })]
      ([], []) ("--p", "red")
      = (["--p" ++ ": " ++ "red"], [])
    ∧ replaceRef
      [("--p", { value := "red", usageCount := 1, setElsewhere := true,
                 mangledName := none, isAlias := some false,
                 emitDeclaration := false })]
      ("var(--p)" : String).data "--p" none
      = ("var(--p)" : String).data := by
  refine ⟨(C1_preservation
      [("--p", { value := "red", usageCount := 1, setElsewhere := true,
                 mangledName := none, isAlias := some false,
                 emitDeclaration := false })]
      ([], []) ("--p", "red")
      { value := "red", usageCount := 1, setElsewhere := true,
        mangledName := none, isAlias := some false,
        emitDeclaration := false } rfl rfl).1 (by decide),
    (C1_preservation
      [("--p", { value := "red", usageCount := 1, setElsewhere := true,
                 mangledName := none, isAlias := some false,
                 emitDeclaration := false })]
      ([], []) ("--p", "red")
      { value := "red", usageCount := 1, setElsewhere := true,
        mangledName := none, isAlias := some false,
        emitDeclaration := false } rfl rfl).2.2.1
      ("var(--p)" : String).data none rfl⟩

/-! ## C3: canonical declarations of mangled groups -/

/-- C3 counterexample: `--y` is the sole (alias) member of its value group,
the group is mangled (`mangledName = "--_0"`) and `--y` is its canonical
(`emitDeclaration = true`), and `--y` is declared in the asset — yet the
transformed asset contains no `--_0: ...` declaration at all (the
transformer additionally requires the canonical not to be an alias), so
the declaration is emitted zero times, not exactly once. -/
theorem C3_counterexample :
    ((lookup
        (generateMangledNames
          (countVariableUsage
            ("@layer tokens\x7b:root\x7b--y: var(--long-external-name);\x7d\x7da\x7bx:var(--y);y:var(--y);z:var(--y)\x7d" : String).data
            (markVariablesSetElsewhere
              ("@layer tokens\x7b:root\x7b--y: var(--long-external-name);\x7d\x7da\x7bx:var(--y);y:var(--y);z:var(--y)\x7d" : String).data
              (resetUsageCounts
                (extractTokensVariables
                  ("@layer tokens\x7b:root\x7b--y: var(--long-external-name);\x7d\x7da\x7bx:var(--y);y:var(--y);z:var(--y)\x7d" : String).data
                  []))))
          "--_").1
        "--y").map (fun t => (t.isAlias, t.mangledName, t.emitDeclaration))
      = some (some true, some "--_0", true))
    ∧ runPass "--_"
        [("f.css", "@layer tokens\x7b:root\x7b--y: var(--long-external-name);\x7d\x7da\x7bx:var(--y);y:var(--y);z:var(--y)\x7d")]
      = [("f.css", "a\x7bx:var(--_0);y:var(--_0);z:var(--_0)\x7d")] := by
  decide

/-- C3 (amended): for a used, not-set-elsewhere variable of a mangled
group, the Transformer emits `mangledName: resolvedValue` only when the
variable is the canonical (`emitDeclaration`) and is not an alias, and the
per-asset emitted-values set makes that emission happen at most once per
asset; an alias canonical (the case where every member of the group is an
alias) and every non-canonical member emit nothing. -/
theorem C3_canonical_emission (reg : Registry) (acc : List String × List String)
    (nv : String × String) (tok : Token) (m : String)
    (h : lookup reg nv.1 = some tok) (hu : tok.usageCount ≠ 0)
    (hse : tok.setElsewhere = false) (hm : tok.mangledName = some m) :
    (tok.isAlias = some true → processDecl reg acc nv = acc)
    ∧ (tok.emitDeclaration = false → processDecl reg acc nv = acc)
    ∧ (tok.emitDeclaration = true → ¬ tok.isAlias = some true →
        processDecl reg acc nv =
          (if acc.2.contains (resolveVariableValue nv.1 reg 0) then acc
           else (acc.1 ++ [m ++ ": " ++ resolveVariableValue nv.1 reg 0],
                 resolveVariableValue nv.1 reg 0 :: acc.2))) := by
  refine ⟨?_, ?_, ?_⟩
  · intro ha
    simp only [processDecl, h]
    simp [hu, hse, hm, aliasTruthy, ha]
  · intro he
    simp only [processDecl, h]
    simp [hu, hse, hm, he]
  · intro he ha
    simp only [processDecl, h]
    simp [hu, hse, hm, he, aliasTruthy, ha]

/-- Witness for C3 at a concrete registry: the non-alias canonical of a
mangled group emits its declaration once (fresh per-asset set). -/
theorem C3_canonical_emission_witness :
    processDecl
      [("--x", { value := "#aabbcc", usageCount := 3, setElsewhere := false,
                 mangledName := some "--_0", isAlias := some false,
                 emitDeclaration := true })]
      ([], []) ("--x", "#aabbcc")
      = (if ([] : List String).contains
            (resolveVariableValue "--x"
              [("--x", { value := "#aabbcc", usageCount := 3,
                         setElsewhere := false, mangledName := some "--_0",
                         isAlias := some false, emitDeclaration := true })] 0)
         then (([] : List String), ([] : List String))
         else ([( "--_0" ++ ": " ++ resolveVariableValue "--x"
              [("--x", { value := "#aabbcc", usageCount := 3,
                         setElsewhere := false, mangledName := some "--_0",
                         isAlias := some false, emitDeclaration := true })] 0)],
               [resolveVariableValue "--x"
              [("--x", { value := "#aabbcc", usageCount := 3,
                         setElsewhere := false, mangledName := some "--_0",
                         isAlias := some false, emitDeclaration := true })] 0])) := by
  exact (C3_canonical_emission
    [("--x", { value := "#aabbcc", usageCount := 3, setElsewhere := false,
               mangledName := some "--_0", isAlias := some false,
               emitDeclaration := true })]
    ([], []) ("--x", "#aabbcc")
    { value := "#aabbcc", usageCount := 3, setElsewhere := false,
      mangledName := some "--_0", isAlias := some false,
      emitDeclaration := true } "--_0"
    rfl (by decide) rfl rfl).2.2 rfl (by decide)

/-! ## C5: unused variables -/

/-- C5 counterexample: `--u` is declared in the tokens scope with zero
reference sites (`usageCount = 0`); its declaration is dropped, but its
name still appears in the transformed output (inside a comment the engine
does not parse), so "its name appears nowhere in any transformed asset"
fails. -/
theorem C5_counterexample :
    ((lookup
        (countVariableUsage
          ("@layer tokens\x7b:root\x7b--u: 1;\x7d\x7d/* --u */" : String).data
          (markVariablesSetElsewhere
            ("@layer tokens\x7b:root\x7b--u: 1;\x7d\x7d/* --u */" : String).data
            (resetUsageCounts
              (extractTokensVariables
                ("@layer tokens\x7b:root\x7b--u: 1;\x7d\x7d/* --u */" : String).data
                []))))
        "--u").map (·.usageCount) = some 0)
    ∧ runPass "--_" [("c.css", "@layer tokens\x7b:root\x7b--u: 1;\x7d\x7d/* --u */")]
      = [("c.css", "/* --u */")]
    ∧ ("--u" : String).data <:+: ("/* --u */" : String).data := by
  decide

/-- C5 (amended): a variable with `usageCount = 0` contributes no
declaration to any rebuilt tokens-scope block (the declaration is dropped),
though its name may still occur in output text that the engine does not
recognize as a declaration or reference. -/
theorem C5_unused_dropped (reg : Registry) (acc : List String × List String)
    (nv : String × String) (tok : Token)
    (h : lookup reg nv.1 = some tok) (h0 : tok.usageCount = 0) :
    processDecl reg acc nv = acc := by
  unfold processDecl
  rw [h]
  simp [h0]

/-- Witness for C5 at a concrete registry. -/
theorem C5_unused_dropped_witness :
    processDecl
      [("--u", { value := "1", usageCount := 0, setElsewhere := false,
                 mangledName := none, isAlias := some false,
                 emitDeclaration := false })]
      (["--kept: a"], ["a"]) ("--u", "1")
      = (["--kept: a"], ["a"]) := by
  exact C5_unused_dropped
    [("--u", { value := "1", usageCount := 0, setElsewhere := false,
               mangledName := none, isAlias := some false,
               emitDeclaration := false })]
    (["--kept: a"], ["a"]) ("--u", "1")
    { value := "1", usageCount := 0, setElsewhere := false,
      mangledName := none, isAlias := some false,
      emitDeclaration := false } rfl rfl

end TokenShaker

namespace TokenShaker

/-! ## C2: the mangle/inline threshold for a 7-character value -/

set_option maxRecDepth 10000 in
/-- C2 counterexample: with prefix `"--_"` and value `"#ff0000"` used 50
times, the Decision Engine chooses inlining, not mangling: after the
decision the token has `mangledName = none`, and the transformed asset
contains no synthetic declaration — every one of the 50 sites is replaced
by `#ff0000`.  (With synthetic name `--_0`, `referenceCost = 10` exceeds
the 7 characters of an inlined occurrence, so `mangleCost = 14 + 50*10 =
514` is never below `inlineCost = 350`.) -/
theorem C2_counterexample :
    ((lookup (generateMangledNames (analyzeOne thresholdAsset50.data) "--_").1
        "--c").map (fun t => (t.usageCount, t.value, t.mangledName))
      = some (50, "#ff0000", none))
    ∧ runPass "--_" [("e.css", thresholdAsset50)]
      = [("e.css", thresholdExpected50)] := by
  decide

set_option maxRecDepth 10000 in
/-- C2 (amended): with prefix `"--_"` and value `"#ff0000"`, usage 1
inlines (the reference is replaced by `#ff0000`, no synthetic declaration)
— and usage 50 also inlines, because `referenceCost = 10` exceeds the
value's 7 characters; indeed the Decision Engine's cost model never
mangles this value group at any usage count. -/
theorem C2_threshold :
    runPass "--_" [("d.css", "@layer tokens\x7b:root\x7b--c: #ff0000;\x7d\x7da\x7bx:var(--c)\x7d")]
      = [("d.css", "a\x7bx:#ff0000\x7d")]
    ∧ runPass "--_" [("e.css", thresholdAsset50)]
      = [("e.css", thresholdExpected50)]
    ∧ (∀ u : Nat,
        (processGroup "--_" ([("--c", redTok u)], 0) ("#ff0000", ["--c"])).2 = 0) := by
  refine ⟨by decide, by decide, ?_⟩
  intro u
  have hname : ("--_" ++ natToBase36 0).length = 4 := rfl
  have hval : ("#ff0000" : String).length = 7 := rfl
  have hlk : lookup [("--c", redTok u)] "--c" = some (redTok u) := rfl
  simp only [processGroup, List.foldl, hlk, hname, hval, Option.map_some,
    Option.getD_some]
  rw [if_neg]
  simp only [redTok]
  omega

/-! ## C9: the pass is not idempotent -/

set_option maxRecDepth 10000 in
/-- C9: a concrete single-asset bundle on which running the pass a second
time on the first run's output changes it again.  Pass 1 counts 3 usages
for the `{--x, --y}` group (one declaration-side reference, one direct
reference, one nested count) and mangles it to `--_0`; pass 2 sees only
one direct reference to `--_0` and inlines it, removing the declaration
and substituting the value. -/
theorem C9_not_idempotent :
    runPass "--_" [("a.css", idemAsset)] = [("a.css", idemOnce)]
    ∧ runPass "--_" [("a.css", idemOnce)] = [("a.css", idemTwice)]
    ∧ runPass "--_" (runPass "--_" [("a.css", idemAsset)])
        ≠ runPass "--_" [("a.css", idemAsset)] := by
  refine ⟨by decide, by decide, ?_⟩
  intro hcontra
  have h1 : runPass "--_" [("a.css", idemAsset)] = [("a.css", idemOnce)] := by
    decide
  rw [h1] at hcontra
  have h2 : runPass "--_" [("a.css", idemOnce)] = [("a.css", idemTwice)] := by
    decide
  rw [h2] at hcontra
  have : idemTwice ≠ idemOnce := by decide
  exact this (congrArg (fun l => (l.headD ("", "")).2) hcontra)

end TokenShaker

namespace TokenShaker

/-! ## C8: the visited set bounds the usage-counting recursion -/

theorem mem_keys_of_lookup (reg : Registry) (n : String) (tok : Token)
    (h : lookup reg n = some tok) : n ∈ reg.map Prod.fst := by
  by_contra hc
  rw [← lookup_eq_none_iff reg n] at hc
  rw [h] at hc
  exact Option.some_ne_none _ hc

theorem countP_mono_imp {α : Type} (l : List α) (p q : α → Bool)
    (himp : ∀ a, q a = true → p a = true) : l.countP q ≤ l.countP p := by
  induction l with
  | nil => simp
  | cons a as ih =>
    rw [List.countP_cons, List.countP_cons]
    by_cases hq : q a = true
    · simp [hq, himp a hq]
      omega
    · have h' : q a = false := by revert hq; cases q a <;> simp
      simp only [h']
      by_cases hp : p a = true
      · simp [hp]
        omega
      · have hp' : p a = false := by revert hp; cases p a <;> simp
        simp [hp']
        omega

theorem countP_lt_of_flip {α : Type} (l : List α) (p q : α → Bool)
    (himp : ∀ a, q a = true → p a = true) (x : α) :
    x ∈ l → p x = true → q x = false → l.countP q < l.countP p := by
  induction l with
  | nil => intro hx; simp at hx
  | cons a as ih =>
    intro hx hpx hqx
    rw [List.countP_cons, List.countP_cons]
    rcases List.mem_cons.mp hx with hax | hax
    · subst hax
      simp only [hpx, hqx]
      have := countP_mono_imp as p q himp
      simp
      omega
    · have h1 := ih hax hpx hqx
      by_cases hq : q a = true
      · simp [hq, himp a hq]
        omega
      · have hq' : q a = false := by revert hq; cases q a <;> simp
        simp only [hq']
        by_cases hp : p a = true
        · simp [hp]
          omega
        · have hp' : p a = false := by revert hp; cases p a <;> simp
          simp [hp']
          omega

theorem contains_of_contains_cons_tail (v : List String) (n x : String)
    (h : v.contains x = true) : (n :: v).contains x = true := by
  simp only [List.contains_cons]
  rw [h]
  simp

theorem unvisited_le_of_keys_visited (st st' : CountSt)
    (hk : st'.reg.map Prod.fst = st.reg.map Prod.fst)
    (hv : ∀ x, st.visited.contains x = true → st'.visited.contains x = true) :
    unvisited st' ≤ unvisited st := by
  unfold unvisited
  rw [hk]
  refine countP_mono_imp _ _ _ (fun a ha => ?_)
  revert ha
  simp only [decide_eq_true_eq]
  intro ha hc
  exact ha (hv a hc)

/-- Descending into a fresh registered name strictly decreases the number
of unvisited registry entries. -/
theorem unvisited_descend_lt (st : CountSt) (n : String) (tok : Token)
    (f : Token → Token)
    (h : lookup st.reg n = some tok) (hnv : st.visited.contains n = false) :
    unvisited { reg := updateTok st.reg n f, visited := n :: st.visited }
      < unvisited st := by
  unfold unvisited
  simp only
  rw [updateTok_keys]
  refine countP_lt_of_flip _ _ _ ?_ n (mem_keys_of_lookup st.reg n tok h) ?_ ?_
  · intro a
    simp only [decide_eq_true_eq]
    intro ha hc
    exact ha (contains_of_contains_cons_tail _ _ _ hc)
  · simp only [decide_eq_true_eq]
    intro hm
    rw [hnv] at hm
    exact Bool.false_ne_true hm
  · simp only [decide_eq_false_iff_not, Decidable.not_not]
    exact List.elem_iff.mpr (List.mem_cons_self n st.visited)

end TokenShaker

namespace TokenShaker

theorem countStep_keys (d : List Char → CountSt → CountSt)
    (hd : ∀ c s, (d c s).reg.map Prod.fst = s.reg.map Prod.fst)
    (n : String) (st : CountSt) :
    (countStep d n st).reg.map Prod.fst = st.reg.map Prod.fst := by
  unfold countStep
  cases hl : lookup st.reg n with
  | none => rfl
  | some tok =>
    dsimp only
    by_cases hv : st.visited.contains n
    · rw [if_pos hv]
      exact updateTok_keys st.reg n
        (fun t => { t with usageCount := t.usageCount + 1 })
    · rw [if_neg hv, hd]
      exact updateTok_keys st.reg n
        (fun t => { t with usageCount := t.usageCount + 1 })

theorem countStep_visited (d : List Char → CountSt → CountSt)
    (hd : ∀ c s x, s.visited.contains x = true →
      (d c s).visited.contains x = true)
    (n : String) (st : CountSt) (x : String)
    (hx : st.visited.contains x = true) :
    (countStep d n st).visited.contains x = true := by
  unfold countStep
  cases hl : lookup st.reg n with
  | none => exact hx
  | some tok =>
    dsimp only
    by_cases hv : st.visited.contains n
    · rw [if_pos hv]
      exact hx
    · rw [if_neg hv]
      exact hd _ _ x (contains_of_contains_cons_tail _ _ _ hx)

theorem countList_keys (d : List Char → CountSt → CountSt)
    (hd : ∀ c s, (d c s).reg.map Prod.fst = s.reg.map Prod.fst) :
    ∀ (names : List String) (st : CountSt),
      ((names.foldl (fun s n => countStep d n s) st).reg.map Prod.fst)
        = st.reg.map Prod.fst := by
  intro names
  induction names with
  | nil => intro st; rfl
  | cons n ns ih =>
    intro st
    rw [List.foldl_cons]
    rw [ih (countStep d n st)]
    exact countStep_keys d hd n st

theorem countList_visited (d : List Char → CountSt → CountSt)
    (hd : ∀ c s x, s.visited.contains x = true →
      (d c s).visited.contains x = true) :
    ∀ (names : List String) (st : CountSt) (x : String),
      st.visited.contains x = true →
      ((names.foldl (fun s n => countStep d n s) st).visited.contains x)
        = true := by
  intro names
  induction names with
  | nil => intro st x hx; exact hx
  | cons n ns ih =>
    intro st x hx
    rw [List.foldl_cons]
    exact ih (countStep d n st) x (countStep_visited d hd n st x hx)

theorem countDepth_keys :
    ∀ (fuel : Nat) (code : List Char) (st : CountSt),
      (countDepth fuel code st).reg.map Prod.fst = st.reg.map Prod.fst := by
  intro fuel
  induction fuel with
  | zero => intro code st; rfl
  | succ f ih =>
    intro code st
    exact countList_keys (countDepth f) (fun c s => ih c s) (scanRefNames code) st

theorem countDepth_visited :
    ∀ (fuel : Nat) (code : List Char) (st : CountSt) (x : String),
      st.visited.contains x = true →
      (countDepth fuel code st).visited.contains x = true := by
  intro fuel
  induction fuel with
  | zero => intro code st x hx; exact hx
  | succ f ih =>
    intro code st x hx
    exact countList_visited (countDepth f) (fun c s => ih c s)
      (scanRefNames code) st x hx

theorem countStep_unvisited_le (d : List Char → CountSt → CountSt)
    (hdk : ∀ c s, (d c s).reg.map Prod.fst = s.reg.map Prod.fst)
    (hdv : ∀ c s x, s.visited.contains x = true →
      (d c s).visited.contains x = true)
    (n : String) (st : CountSt) :
    unvisited (countStep d n st) ≤ unvisited st := by
  unfold countStep
  cases hl : lookup st.reg n with
  | none => exact Nat.le_refl _
  | some tok =>
    dsimp only
    by_cases hv : st.visited.contains n
    · rw [if_pos hv]
      apply Nat.le_of_eq
      unfold unvisited
      rw [updateTok_keys]
    · rw [if_neg hv]
      have hv' : st.visited.contains n = false := by
        revert hv; cases st.visited.contains n <;> simp
      have h2 : unvisited
          { reg := updateTok st.reg n
              (fun t => { t with usageCount := t.usageCount + 1 }),
            visited := n :: st.visited } < unvisited st :=
        unvisited_descend_lt st n tok _ hl hv'
      refine Nat.le_trans (unvisited_le_of_keys_visited _ _ (hdk _ _) ?_)
        (Nat.le_of_lt h2)
      intro x hx
      exact hdv _ _ x hx

theorem foldl_congr_inv {α β : Type} (INV : α → Prop) (f g : α → β → α)
    (hfg : ∀ s x, INV s → f s x = g s x)
    (hpres : ∀ s x, INV s → INV (f s x)) :
    ∀ (l : List β) (s : α), INV s → l.foldl f s = l.foldl g s := by
  intro l
  induction l with
  | nil => intro s _; rfl
  | cons x xs ih =>
    intro s hs
    rw [List.foldl_cons, List.foldl_cons, ← hfg s x hs]
    exact ih (f s x) (hpres s x hs)

/-- The usage-counting recursion computes the same result under any fuel
strictly above the number of unvisited registry entries: the visited set
genuinely bounds the recursion depth. -/
theorem countDepth_fuel_irrel :
    ∀ (u : Nat) (st : CountSt), unvisited st ≤ u →
      ∀ (f g : Nat) (code : List Char), u < f → u < g →
      countDepth f code st = countDepth g code st := by
  intro u
  induction u using Nat.strong_induction_on with
  | _ u IH =>
    intro st hst f g code hf hg
    match f, g with
    | f' + 1, g' + 1 =>
      show (scanRefNames code).foldl (fun s n => countStep (countDepth f') n s) st
        = (scanRefNames code).foldl (fun s n => countStep (countDepth g') n s) st
      refine foldl_congr_inv (fun s => unvisited s ≤ unvisited st) _ _
        ?_ ?_ (scanRefNames code) st (Nat.le_refl _)
      · intro s n hs
        unfold countStep
        cases hl : lookup s.reg n with
        | none => rfl
        | some tok =>
          dsimp only
          by_cases hv : s.visited.contains n
          · rw [if_pos hv, if_pos hv]
          · rw [if_neg hv, if_neg hv]
            have hv' : s.visited.contains n = false := by
              revert hv; cases s.visited.contains n <;> simp
            have hlt : unvisited
                { reg := updateTok s.reg n
                    (fun t => { t with usageCount := t.usageCount + 1 }),
                  visited := n :: s.visited } < unvisited s :=
              unvisited_descend_lt s n tok _ hl hv'
            exact IH (unvisited
                { reg := updateTok s.reg n
                    (fun t => { t with usageCount := t.usageCount + 1 }),
                  visited := n :: s.visited })
              (by omega) _ (Nat.le_refl _) f' g' tok.value.data
              (by omega) (by omega)
      · intro s n hs
        refine Nat.le_trans
          (countStep_unvisited_le (countDepth f')
            (fun c s' => countDepth_keys f' c s')
            (fun c s' x hx => countDepth_visited f' c s' x hx) n s) hs

end TokenShaker

namespace TokenShaker

/-- C8: value resolution and usage counting terminate on every input,
including cyclic registries.  `resolveVariableValue` is depth-bounded: any
call past the limit (`depth > 10`) immediately returns the unexpanded
reference, so the recursion never exceeds 11 levels.  `countVariableUsage`
runs `countDepth` with fuel `reg.length + 1`; because the visited set
prevents revisiting a name, any fuel at least `reg.length + 1` computes
the identical result — the recursion bottoms out within the visited-set
bound, which is what termination of the unbounded JS recursion means in
this embedding. -/
theorem C8_termination :
    (∀ (code : List Char) (reg : Registry) (f : Nat),
      reg.length + 1 ≤ f →
      countDepth f code { reg := reg, visited := [] } =
        countDepth (reg.length + 1) code { reg := reg, visited := [] })
    ∧ (∀ (varName : String) (reg : Registry) (depth : Nat), 10 < depth →
        resolveVariableValue varName reg depth = "var(" ++ varName ++ ")") := by
  constructor
  · intro code reg f hf
    have hu : unvisited { reg := reg, visited := ([] : List String) }
        ≤ reg.length := by
      unfold unvisited
      refine Nat.le_trans (List.countP_le_length _) ?_
      rw [List.length_map]
    exact countDepth_fuel_irrel reg.length _ hu f (reg.length + 1) code
      (by omega) (by omega)
  · intro varName reg depth hd
    unfold resolveVariableValue
    rw [show 11 - depth = 0 by omega]
    rfl

/-- Witness for C8 on a concrete cyclic registry (`--a` and `--b`
reference each other): extra fuel does not change the usage analysis, and
resolution past the depth limit returns the unexpanded reference. -/
theorem C8_termination_witness :
    (([("--a", { value := "var(--b)", usageCount := 0, setElsewhere := false,
                 mangledName := none, isAlias := some true,
                 emitDeclaration := false }),
       ("--b", { value := "var(--a)", usageCount := 0, setElsewhere := false,
                 mangledName := none, isAlias := some true,
                 emitDeclaration := false })] : Registry).length + 1 ≤ 7
      ∧ countDepth 7 ("p\x7bc:var(--a)\x7d" : String).data
          { reg := [("--a", { value := "var(--b)", usageCount := 0,
                              setElsewhere := false, mangledName := none,
                              isAlias := some true, emitDeclaration := false }),
                    ("--b", { value := "var(--a)", usageCount := 0,
                              setElsewhere := false, mangledName := none,
                              isAlias := some true, emitDeclaration := false })],
            visited := [] }
        = countDepth
            (([("--a", { value := "var(--b)", usageCount := 0,
                         setElsewhere := false, mangledName := none,
                         isAlias := some true, emitDeclaration := false }),
               ("--b", { value := "var(--a)", usageCount := 0,
                         setElsewhere := false, mangledName := none,
                         isAlias := some true,
                         emitDeclaration := false })] : Registry).length + 1)
            ("p\x7bc:var(--a)\x7d" : String).data
            { reg := [("--a", { value := "var(--b)", usageCount := 0,
                                setElsewhere := false, mangledName := none,
                                isAlias := some true,
                                emitDeclaration := false }),
                      ("--b", { value := "var(--a)", usageCount := 0,
                                setElsewhere := false, mangledName := none,
                                isAlias := some true,
                                emitDeclaration := false })],
              visited := [] })
    ∧ (10 < 11
      ∧ resolveVariableValue "--a"
          [("--a", { value := "var(--b)", usageCount := 0,
                     setElsewhere := false, mangledName := none,
                     isAlias := some true, emitDeclaration := false }),
           ("--b", { value := "var(--a)", usageCount := 0,
                     setElsewhere := false, mangledName := none,
                     isAlias := some true, emitDeclaration := false })] 11
        = "var(" ++ "--a" ++ ")") := by
  refine ⟨⟨by decide, C8_termination.1 ("p\x7bc:var(--a)\x7d" : String).data _ 7
      (by decide)⟩,
    ⟨by decide, C8_termination.2 "--a" _ 11 (by decide)⟩⟩

end TokenShaker

namespace TokenShaker

/-! ## C10: direct references always increment the usage count -/

theorem lookup_isSome_of_mem (reg : Registry) (n : String)
    (h : n ∈ reg.map Prod.fst) : ∃ tok, lookup reg n = some tok := by
  cases hl : lookup reg n with
  | none => exact absurd ((lookup_eq_none_iff reg n).mp hl) (by simp [h])
  | some tok => exact ⟨tok, rfl⟩

theorem countStep_usage_mono (d : List Char → CountSt → CountSt)
    (hd : ∀ c s m, usageOf s m ≤ usageOf (d c s) m)
    (n m : String) (st : CountSt) :
    usageOf st m ≤ usageOf (countStep d n st) m := by
  unfold countStep
  cases hl : lookup st.reg n with
  | none => exact Nat.le_refl _
  | some tok =>
    dsimp only
    have hstep : usageOf st m ≤ usageOf
        { reg := updateTok st.reg n
            (fun t => { t with usageCount := t.usageCount + 1 }),
          visited := st.visited } m := by
      unfold usageOf
      by_cases hm : m = n
      · subst hm
        show ((lookup st.reg m).map (·.usageCount)).getD 0 ≤
          ((lookup (updateTok st.reg m
            (fun t => { t with usageCount := t.usageCount + 1 })) m).map
              (·.usageCount)).getD 0
        rw [lookup_updateTok_self, hl]
        simp
      · show ((lookup st.reg m).map (·.usageCount)).getD 0 ≤
          ((lookup (updateTok st.reg n
            (fun t => { t with usageCount := t.usageCount + 1 })) m).map
              (·.usageCount)).getD 0
        rw [lookup_updateTok_ne _ _ _ _ hm]
    by_cases hv : st.visited.contains n
    · rw [if_pos hv]
      exact hstep
    · rw [if_neg hv]
      exact Nat.le_trans hstep
        (hd tok.value.data
          { reg := updateTok st.reg n
              (fun t => { t with usageCount := t.usageCount + 1 }),
            visited := n :: st.visited } m)

theorem countStep_usage_incr (d : List Char → CountSt → CountSt)
    (hd : ∀ c s m, usageOf s m ≤ usageOf (d c s) m)
    (n : String) (st : CountSt) (tok : Token)
    (hl : lookup st.reg n = some tok) :
    usageOf st n + 1 ≤ usageOf (countStep d n st) n := by
  unfold countStep
  rw [hl]
  dsimp only
  have h1 : usageOf
      { reg := updateTok st.reg n
          (fun t => { t with usageCount := t.usageCount + 1 }),
        visited := st.visited } n = usageOf st n + 1 := by
    unfold usageOf
    show ((lookup (updateTok st.reg n
        (fun t => { t with usageCount := t.usageCount + 1 })) n).map
          (·.usageCount)).getD 0 = ((lookup st.reg n).map (·.usageCount)).getD 0 + 1
    rw [lookup_updateTok_self, hl]
    simp
  by_cases hv : st.visited.contains n
  · rw [if_pos hv]
    exact Nat.le_of_eq h1.symm
  · rw [if_neg hv]
    exact Nat.le_trans (Nat.le_of_eq h1.symm)
      (hd tok.value.data
        { reg := updateTok st.reg n
            (fun t => { t with usageCount := t.usageCount + 1 }),
          visited := n :: st.visited } n)

theorem countList_usage_mono (d : List Char → CountSt → CountSt)
    (hd : ∀ c s m, usageOf s m ≤ usageOf (d c s) m) :
    ∀ (names : List String) (st : CountSt) (m : String),
      usageOf st m ≤ usageOf (names.foldl (fun s n => countStep d n s) st) m := by
  intro names
  induction names with
  | nil => intro st m; exact Nat.le_refl _
  | cons n ns ih =>
    intro st m
    rw [List.foldl_cons]
    exact Nat.le_trans (countStep_usage_mono d hd n m st) (ih _ m)

theorem countDepth_usage_mono :
    ∀ (fuel : Nat) (code : List Char) (st : CountSt) (m : String),
      usageOf st m ≤ usageOf (countDepth fuel code st) m := by
  intro fuel
  induction fuel with
  | zero => intro code st m; exact Nat.le_refl _
  | succ f ih =>
    intro code st m
    exact countList_usage_mono (countDepth f) (fun c s m' => ih c s m')
      (scanRefNames code) st m

theorem countList_usage_incr (d : List Char → CountSt → CountSt)
    (hd : ∀ c s m, usageOf s m ≤ usageOf (d c s) m)
    (hdk : ∀ c s, (d c s).reg.map Prod.fst = s.reg.map Prod.fst)
    (name : String) :
    ∀ (names : List String) (st : CountSt),
      name ∈ names → name ∈ st.reg.map Prod.fst →
      usageOf st name + 1 ≤
        usageOf (names.foldl (fun s n => countStep d n s) st) name := by
  intro names
  induction names with
  | nil => intro st hmem; simp at hmem
  | cons n ns ih =>
    intro st hmem hkeys
    rw [List.foldl_cons]
    rcases List.mem_cons.mp hmem with heq | htail
    · subst heq
      obtain ⟨tok, htok⟩ := lookup_isSome_of_mem st.reg name hkeys
      exact Nat.le_trans (countStep_usage_incr d hd name st tok htok)
        (countList_usage_mono d hd ns _ name)
    · refine Nat.le_trans
        (Nat.add_le_add_right (countStep_usage_mono d hd n name st) 1)
        (ih _ htail ?_)
      rw [countStep_keys d hdk n st]
      exact hkeys

theorem countDepth_usage_incr (fuel : Nat) (code : List Char) (st : CountSt)
    (name : String) (hf : 0 < fuel) (hkeys : name ∈ st.reg.map Prod.fst)
    (hmem : name ∈ scanRefNames code) :
    usageOf st name + 1 ≤ usageOf (countDepth fuel code st) name := by
  match fuel, hf with
  | f + 1, _ =>
    exact countList_usage_incr (countDepth f)
      (fun c s m => countDepth_usage_mono f c s m)
      (fun c s => countDepth_keys f c s) name (scanRefNames code) st hmem hkeys

theorem mark_keys (code : List Char) (reg : Registry) :
    (markVariablesSetElsewhere code reg).map Prod.fst = reg.map Prod.fst := by
  simp only [markVariablesSetElsewhere, List.map_map]
  refine List.map_congr_left (fun p _ => ?_)
  by_cases hc : containsAssign (blankTokensLayers code) p.1
  · simp [hc]
  · simp [hc]

theorem lookup_mark (code : List Char) (reg : Registry) (m : String) :
    lookup (markVariablesSetElsewhere code reg) m =
      (lookup reg m).map (fun t =>
        if containsAssign (blankTokensLayers code) m
        then { t with setElsewhere := true } else t) := by
  simp only [markVariablesSetElsewhere]
  induction reg with
  | nil => rfl
  | cons p rest ih =>
    by_cases hp : p.1 = m
    · subst hp
      by_cases hc : containsAssign (blankTokensLayers code) p.1
      · simp [lookup_cons, hc]
      · simp [lookup_cons, hc]
    · by_cases hc : containsAssign (blankTokensLayers code) p.1
      · simp only [List.map_cons, if_pos hc, lookup_cons]
        rw [if_neg hp, if_neg hp]
        exact ih
      · simp only [List.map_cons, if_neg hc, lookup_cons]
        rw [if_neg hp, if_neg hp]
        exact ih

end TokenShaker

namespace TokenShaker

theorem usage_mark (code : List Char) (r : Registry) (m : String) :
    usageOf { reg := markVariablesSetElsewhere code r, visited := [] } m
      = usageOf { reg := r, visited := [] } m := by
  unfold usageOf
  show ((lookup (markVariablesSetElsewhere code r) m).map (·.usageCount)).getD 0
    = ((lookup r m).map (·.usageCount)).getD 0
  rw [lookup_mark]
  cases lookup r m with
  | none => rfl
  | some t =>
    by_cases hc : containsAssign (blankTokensLayers code) m
    · simp [hc]
    · simp [hc]

theorem countVariableUsage_keys (code : List Char) (r : Registry) :
    (countVariableUsage code r).map Prod.fst = r.map Prod.fst :=
  countDepth_keys (r.length + 1) code { reg := r, visited := [] }

theorem countVariableUsage_usage_mono (code : List Char) (r : Registry)
    (m : String) :
    usageOf { reg := r, visited := [] } m
      ≤ usageOf { reg := countVariableUsage code r, visited := [] } m :=
  countDepth_usage_mono (r.length + 1) code { reg := r, visited := [] } m

theorem countVariableUsage_usage_incr (code : List Char) (r : Registry)
    (name : String) (hk : name ∈ r.map Prod.fst)
    (hn : name ∈ scanRefNames code) :
    usageOf { reg := r, visited := [] } name + 1
      ≤ usageOf { reg := countVariableUsage code r, visited := [] } name :=
  countDepth_usage_incr (r.length + 1) code { reg := r, visited := [] } name
    (by omega) hk hn

theorem analyzeAll_keys :
    ∀ (assets : List (String × String)) (r : Registry),
      (analyzeAll assets r).map Prod.fst = r.map Prod.fst := by
  intro assets
  induction assets with
  | nil => intro r; rfl
  | cons a rest ih =>
    intro r
    have hstep : analyzeAll (a :: rest) r = analyzeAll rest
        (countVariableUsage a.2.data (markVariablesSetElsewhere a.2.data r)) :=
      rfl
    rw [hstep, ih, countVariableUsage_keys, mark_keys]

theorem analyzeAll_usage_mono :
    ∀ (assets : List (String × String)) (r : Registry) (m : String),
      usageOf { reg := r, visited := [] } m
        ≤ usageOf { reg := analyzeAll assets r, visited := [] } m := by
  intro assets
  induction assets with
  | nil => intro r m; exact Nat.le_refl _
  | cons a rest ih =>
    intro r m
    refine Nat.le_trans ?_
      (ih (countVariableUsage a.2.data (markVariablesSetElsewhere a.2.data r)) m)
    refine Nat.le_trans (Nat.le_of_eq (usage_mark a.2.data r m).symm) ?_
    exact countVariableUsage_usage_mono a.2.data _ m

theorem analyzeAll_usage_ge_one :
    ∀ (assets : List (String × String)) (r : Registry) (name : String),
      name ∈ r.map Prod.fst →
      (∃ p ∈ assets, name ∈ scanRefNames p.2.data) →
      1 ≤ usageOf { reg := analyzeAll assets r, visited := [] } name := by
  intro assets
  induction assets with
  | nil =>
    intro r name _ hex
    simp at hex
  | cons a rest ih =>
    intro r name hk hex
    have hstep : analyzeAll (a :: rest) r = analyzeAll rest
        (countVariableUsage a.2.data (markVariablesSetElsewhere a.2.data r)) :=
      rfl
    rw [hstep]
    obtain ⟨q, hq, hqn⟩ := hex
    rcases List.mem_cons.mp hq with hqa | hqr
    · subst hqa
      refine Nat.le_trans ?_ (analyzeAll_usage_mono rest _ name)
      have hk' : name ∈ (markVariablesSetElsewhere q.2.data r).map Prod.fst := by
        rw [mark_keys]; exact hk
      have h1 := countVariableUsage_usage_incr q.2.data
        (markVariablesSetElsewhere q.2.data r) name hk' hqn
      omega
    · refine ih _ name ?_ ⟨q, hqr, hqn⟩
      rw [countVariableUsage_keys, mark_keys]
      exact hk

/-- C10: a direct `var(--name...)` reference to a registered name always
increments that name's usage count — even when the name is already in the
cycle-guard visited set, which suppresses only the recursive descent —
and consequently a registered variable with at least one direct reference
occurrence in any scanned asset ends the analysis with `usageCount ≥ 1`,
so the Transformer's drop-unused test (`usageCount == 0`) never fires for
it. -/
theorem C10_direct_references (assets : List (String × String))
    (reg : Registry) (name : String) :
    (∀ (code : List Char) (st : CountSt) (fuel : Nat), 0 < fuel →
      name ∈ st.reg.map Prod.fst → name ∈ scanRefNames code →
      st.visited.contains name = true →
      usageOf st name + 1 ≤ usageOf (countDepth fuel code st) name)
    ∧ (name ∈ reg.map Prod.fst →
      (∃ p ∈ assets, name ∈ scanRefNames p.2.data) →
      ∃ tok', lookup (analyzeAll assets reg) name = some tok'
        ∧ 1 ≤ tok'.usageCount ∧ ¬ tok'.usageCount = 0) := by
  constructor
  · intro code st fuel hf hk hn _
    exact countDepth_usage_incr fuel code st name hf hk hn
  · intro hk hex
    have h1 := analyzeAll_usage_ge_one assets reg name hk hex
    have hk' : name ∈ (analyzeAll assets reg).map Prod.fst := by
      rw [analyzeAll_keys]; exact hk
    obtain ⟨tok', htok⟩ := lookup_isSome_of_mem _ name hk'
    refine ⟨tok', htok, ?_, ?_⟩
    · unfold usageOf at h1
      rw [htok] at h1
      simpa using h1
    · unfold usageOf at h1
      rw [htok] at h1
      simp at h1
      omega

/-- Witness for C10, exercising both parts at concrete inputs: the direct
increment happens although `--a` is already in the visited set, and the
single-asset analysis ends with `usageCount ≥ 1` for `--a`. -/
theorem C10_direct_references_witness :
    (0 < 1
      ∧ "--a" ∈ ([("--a", { value := "red", usageCount := 0,
                            setElsewhere := false, mangledName := none,
                            isAlias := some false,
                            emitDeclaration := false })] : Registry).map
                  Prod.fst
      ∧ "--a" ∈ scanRefNames ("p\x7bc:var(--a)\x7d" : String).data
      ∧ (["--a"] : List String).contains "--a" = true
      ∧ usageOf { reg := [("--a", { value := "red", usageCount := 0,
                                    setElsewhere := false,
                                    mangledName := none,
                                    isAlias := some false,
                                    emitDeclaration := false })],
                  visited := ["--a"] } "--a" + 1
          ≤ usageOf (countDepth 1 ("p\x7bc:var(--a)\x7d" : String).data
              { reg := [("--a", { value := "red", usageCount := 0,
                                  setElsewhere := false,
                                  mangledName := none,
                                  isAlias := some false,
                                  emitDeclaration := false })],
                visited := ["--a"] }) "--a")
    ∧ (∃ tok', lookup (analyzeAll [("a.css", "p\x7bc:var(--a)\x7d")]
          [("--a", { value := "red", usageCount := 0, setElsewhere := false,
                     mangledName := none, isAlias := some false,
                     emitDeclaration := false })]) "--a" = some tok'
        ∧ 1 ≤ tok'.usageCount ∧ ¬ tok'.usageCount = 0) := by
  refine ⟨⟨by decide, by decide, by decide, by decide,
    (C10_direct_references [("a.css", "p\x7bc:var(--a)\x7d")]
      [("--a", { value := "red", usageCount := 0, setElsewhere := false,
                 mangledName := none, isAlias := some false,
                 emitDeclaration := false })] "--a").1
      ("p\x7bc:var(--a)\x7d" : String).data
      { reg := [("--a", { value := "red", usageCount := 0,
                          setElsewhere := false, mangledName := none,
                          isAlias := some false,
                          emitDeclaration := false })],
        visited := ["--a"] } 1
      (by decide) (by decide) (by decide) (by decide)⟩,
    (C10_direct_references [("a.css", "p\x7bc:var(--a)\x7d")]
      [("--a", { value := "red", usageCount := 0, setElsewhere := false,
                 mangledName := none, isAlias := some false,
                 emitDeclaration := false })] "--a").2
      (by decide) ⟨("a.css", "p\x7bc:var(--a)\x7d"), by decide, by decide⟩⟩

end TokenShaker

namespace TokenShaker

/-! ## C4: the cost-model decision of the Decision Engine -/

theorem fold_updateTok_proj {β : Type} (proj : Token → β)
    (F : String → Token → Token) (hF : ∀ v t, proj (F v t) = proj t) :
    ∀ (vs : List String) (r : Registry) (m : String),
      (lookup (vs.foldl (fun r' v => updateTok r' v (F v)) r) m).map proj
        = (lookup r m).map proj := by
  intro vs
  induction vs with
  | nil => intro r m; rfl
  | cons v vs ih =>
    intro r m
    rw [List.foldl_cons, ih]
    by_cases hm : m = v
    · subst hm
      rw [lookup_updateTok_self]
      cases lookup r m with
      | none => rfl
      | some t => simp [hF]
    · rw [lookup_updateTok_ne _ _ _ _ hm]

theorem fold_updateTok_notmem (F : String → Token → Token) :
    ∀ (vs : List String) (r : Registry) (m : String), m ∉ vs →
      lookup (vs.foldl (fun r' v => updateTok r' v (F v)) r) m
        = lookup r m := by
  intro vs
  induction vs with
  | nil => intro r m _; rfl
  | cons v vs ih =>
    intro r m hm
    rw [List.foldl_cons, ih _ m (fun hc => hm (List.mem_cons_of_mem _ hc)),
      lookup_updateTok_ne _ _ _ _
        (fun hc => hm (by rw [hc]; exact List.mem_cons_self v vs))]

theorem fold_updateTok_mangled (C : Option String) (E : String → Bool) :
    ∀ (vs : List String) (r : Registry) (m : String), m ∈ vs →
      (lookup (vs.foldl (fun r' v => updateTok r' v (fun t =>
          { t with mangledName := C, emitDeclaration := E v })) r) m).map
            (·.mangledName)
        = (lookup r m).map (fun _ => C) := by
  intro vs
  induction vs with
  | nil => intro r m hm; simp at hm
  | cons v vs ih =>
    intro r m hm
    rw [List.foldl_cons]
    by_cases hmem : m ∈ vs
    · rw [ih _ m hmem]
      by_cases hmv : m = v
      · subst hmv
        rw [lookup_updateTok_self]
        cases lookup r m with
        | none => rfl
        | some t => rfl
      · rw [lookup_updateTok_ne _ _ _ _ hmv]
    · have hmv : m = v := by
        rcases List.mem_cons.mp hm with h | h
        · exact h
        · exact absurd h hmem
      subst hmv
      rw [fold_updateTok_notmem _ vs _ m hmem, lookup_updateTok_self]
      cases lookup r m with
      | none => rfl
      | some t => rfl

theorem foldl_add_eq_sum (f : String → Nat) :
    ∀ (l : List String) (a : Nat),
      l.foldl (fun s v => s + f v) a = a + (l.map f).sum := by
  intro l
  induction l with
  | nil => intro a; simp
  | cons x xs ih =>
    intro a
    rw [List.foldl_cons, ih, List.map_cons, List.sum_cons]
    omega

theorem processGroup_usage (mPre : String) (st : Registry × Nat)
    (g : String × List String) (m : String) :
    (lookup (processGroup mPre st g).1 m).map (·.usageCount)
      = (lookup st.1 m).map (·.usageCount) := by
  simp only [processGroup]
  split
  · dsimp only
    apply fold_updateTok_proj (·.usageCount)
    intro v t
    rfl
  · dsimp only
    apply fold_updateTok_proj (·.usageCount)
    intro v t
    rfl

theorem processGroup_notmem (mPre : String) (st : Registry × Nat)
    (g : String × List String) (m : String) (hm : m ∉ g.2) :
    lookup (processGroup mPre st g).1 m = lookup st.1 m := by
  simp only [processGroup]
  split
  · dsimp only
    exact fold_updateTok_notmem _ g.2 st.1 m hm
  · dsimp only
    exact fold_updateTok_notmem _ g.2 st.1 m hm

theorem processGroup_mem_mangled (mPre : String) (st : Registry × Nat)
    (g : String × List String) (m : String) (hm : m ∈ g.2) :
    (lookup (processGroup mPre st g).1 m).map (·.mangledName)
      = (lookup st.1 m).map (fun _ =>
          if ((mPre ++ natToBase36 st.2).length + 2 + g.1.length + 1)
              + (g.2.map (fun v =>
                  ((lookup st.1 v).map (·.usageCount)).getD 0)).sum
                * (5 + (mPre ++ natToBase36 st.2).length + 1)
            < (g.2.map (fun v =>
                  ((lookup st.1 v).map (·.usageCount)).getD 0)).sum
                * g.1.length
          then some (mPre ++ natToBase36 st.2) else none) := by
  have hsum : g.2.foldl
      (fun s v => s + ((lookup st.1 v).map (·.usageCount)).getD 0) 0
      = (g.2.map (fun v => ((lookup st.1 v).map (·.usageCount)).getD 0)).sum := by
    rw [foldl_add_eq_sum]
    omega
  simp only [processGroup, hsum]
  split
  · dsimp only
    rw [fold_updateTok_mangled _ _ g.2 st.1 m hm]
  · dsimp only
    rw [fold_updateTok_mangled _ _ g.2 st.1 m hm]

theorem groupsFold_usage (mPre : String) :
    ∀ (gs : List (String × List String)) (st : Registry × Nat) (m : String),
      (lookup (gs.foldl (processGroup mPre) st).1 m).map (·.usageCount)
        = (lookup st.1 m).map (·.usageCount) := by
  intro gs
  induction gs with
  | nil => intro st m; rfl
  | cons g' gs ih =>
    intro st m
    rw [List.foldl_cons, ih, processGroup_usage]

theorem groupsFold_notmem (mPre : String) :
    ∀ (gs : List (String × List String)) (st : Registry × Nat) (m : String),
      (∀ g' ∈ gs, m ∉ g'.2) →
      lookup (gs.foldl (processGroup mPre) st).1 m = lookup st.1 m := by
  intro gs
  induction gs with
  | nil => intro st m _; rfl
  | cons g' gs ih =>
    intro st m hall
    rw [List.foldl_cons,
      ih _ m (fun q hq => hall q (List.mem_cons_of_mem _ hq)),
      processGroup_notmem _ _ _ m (hall g' (List.mem_cons_self _ _))]

end TokenShaker

namespace TokenShaker

theorem addToGroup_flat (rv nm : String) :
    ∀ (groups : List (String × List String)),
      List.Perm ((addToGroup groups rv nm).flatMap (fun q => q.2))
        (groups.flatMap (fun q => q.2) ++ [nm]) := by
  intro groups
  induction groups with
  | nil => simp [addToGroup]
  | cons p rest ih =>
    cases p with
    | mk k vs =>
      by_cases hk : k = rv
      · rw [show addToGroup ((k, vs) :: rest) rv nm
            = (k, vs ++ [nm]) :: rest from by simp [addToGroup, hk]]
        rw [List.flatMap_cons, List.flatMap_cons, List.append_assoc,
          List.append_assoc]
        exact List.Perm.append_left vs List.perm_append_comm
      · rw [show addToGroup ((k, vs) :: rest) rv nm
            = (k, vs) :: addToGroup rest rv nm from by simp [addToGroup, hk]]
        rw [List.flatMap_cons, List.flatMap_cons, List.append_assoc]
        exact List.Perm.append_left vs ih

theorem groupFold_flat (reg : Registry) :
    ∀ (entries : List (String × Token)) (groups : List (String × List String)),
      List.Perm
        ((entries.foldl (fun gs p =>
          if p.2.usageCount = 0 then gs
          else addToGroup gs (resolveVariableValue p.1 reg 0) p.1) groups).flatMap
            (fun q => q.2))
        (groups.flatMap (fun q => q.2)
          ++ (entries.filter (fun p => ¬ p.2.usageCount = 0)).map Prod.fst) := by
  intro entries
  induction entries with
  | nil => intro groups; simp
  | cons p rest ih =>
    intro groups
    rw [List.foldl_cons]
    by_cases h0 : p.2.usageCount = 0
    · rw [if_pos h0]
      have hfilter : (p :: rest).filter (fun p => ¬ p.2.usageCount = 0)
          = rest.filter (fun p => ¬ p.2.usageCount = 0) := by
        simp [List.filter_cons, h0]
      rw [hfilter]
      exact ih groups
    · rw [if_neg h0]
      have hfilter : (p :: rest).filter (fun p => ¬ p.2.usageCount = 0)
          = p :: rest.filter (fun p => ¬ p.2.usageCount = 0) := by
        simp [List.filter_cons, h0]
      rw [hfilter, List.map_cons]
      refine List.Perm.trans (ih (addToGroup groups
        (resolveVariableValue p.1 reg 0) p.1)) ?_
      refine List.Perm.trans
        (List.Perm.append_right _ (addToGroup_flat _ _ groups)) ?_
      rw [List.append_assoc]
      refine List.Perm.append_left _ ?_
      rw [show (p.1 :: (rest.filter (fun p => ¬ p.2.usageCount = 0)).map Prod.fst)
          = [p.1] ++ (rest.filter (fun p => ¬ p.2.usageCount = 0)).map Prod.fst
          from rfl]

theorem groups_members_nodup (reg : Registry)
    (hnd : (reg.map Prod.fst).Nodup) :
    ((groupByResolved reg).flatMap (fun q => q.2)).Nodup := by
  have hperm := groupFold_flat reg reg []
  have hnodup : (([] : List (String × List String)).flatMap (fun q => q.2)
      ++ (reg.filter (fun p => ¬ p.2.usageCount = 0)).map Prod.fst).Nodup := by
    simp only [List.flatMap_nil, List.nil_append]
    exact List.Nodup.sublist
      (List.Sublist.map Prod.fst (List.filter_sublist reg)) hnd
  exact (List.Perm.nodup_iff hperm).mpr hnodup

/-- C4: for every value group of the Decision Engine, with `totalUsage`
the sum of the members' usage counts and `resolvedValue` the group key,
the engine computes `declarationCost = len(syntheticName) + 2 +
len(resolvedValue) + 1` and `referenceCost = 5 + len(syntheticName) + 1`,
and assigns the members a mangled name if and only if
`declarationCost + totalUsage * referenceCost < totalUsage *
len(resolvedValue)` — strict inequality, so a tie results in inlining. -/
theorem C4_cost_decision (reg : Registry) (mPre : String)
    (hnd : (reg.map Prod.fst).Nodup)
    (g : String × List String) (hg : g ∈ groupByResolved reg)
    (n : String) (hn : n ∈ g.2) :
    ∃ syntheticName : String,
      (lookup (generateMangledNames reg mPre).1 n).map (·.mangledName)
        = (lookup reg n).map (fun _ =>
            if (syntheticName.length + 2 + g.1.length + 1)
                + (g.2.map (fun v =>
                    ((lookup reg v).map (·.usageCount)).getD 0)).sum
                  * (5 + syntheticName.length + 1)
              < (g.2.map (fun v =>
                    ((lookup reg v).map (·.usageCount)).getD 0)).sum
                  * g.1.length
            then some syntheticName else none) := by
  obtain ⟨preG, postG, hsplit⟩ := List.append_of_mem hg
  have hflat := groups_members_nodup reg hnd
  rw [hsplit, List.flatMap_append, List.flatMap_cons] at hflat
  rw [List.nodup_append] at hflat
  obtain ⟨hnd1, hnd2, hdisj⟩ := hflat
  rw [List.nodup_append] at hnd2
  obtain ⟨hndg, hndpost, hdisj2⟩ := hnd2
  have hpre : ∀ g' ∈ preG, n ∉ g'.2 := by
    intro g' hg' hmem
    exact hdisj (List.mem_flatMap.mpr ⟨g', hg', hmem⟩)
      (List.mem_append.mpr (Or.inl hn))
  have hpost : ∀ g' ∈ postG, n ∉ g'.2 := by
    intro g' hg' hmem
    exact hdisj2 hn (List.mem_flatMap.mpr ⟨g', hg', hmem⟩)
  unfold generateMangledNames
  rw [hsplit, List.foldl_append, List.foldl_cons]
  refine ⟨mPre ++ natToBase36 (preG.foldl (processGroup mPre) (reg, 0)).2, ?_⟩
  rw [groupsFold_notmem mPre postG _ n hpost]
  rw [processGroup_mem_mangled mPre _ g n hn]
  have hlook : lookup (preG.foldl (processGroup mPre) (reg, 0)).1 n
      = lookup reg n :=
    groupsFold_notmem mPre preG (reg, 0) n hpre
  have husage : ∀ v : String,
      ((lookup (preG.foldl (processGroup mPre) (reg, 0)).1 v).map
        (·.usageCount)).getD 0
      = ((lookup reg v).map (·.usageCount)).getD 0 := by
    intro v
    rw [groupsFold_usage mPre preG (reg, 0) v]
  have hsums : (g.2.map (fun v =>
      ((lookup (preG.foldl (processGroup mPre) (reg, 0)).1 v).map
        (·.usageCount)).getD 0)).sum
      = (g.2.map (fun v => ((lookup reg v).map (·.usageCount)).getD 0)).sum := by
    exact congrArg List.sum (List.map_congr_left (fun v _ => husage v))
  rw [hlook, hsums]

end TokenShaker

namespace TokenShaker

/-- Witness for C4 on a concrete registry: a single-member group with
value `#ff0000` and usage 50 (which the cost model leaves unmangled,
since 14 + 50*10 is not below 50*7). -/
theorem C4_cost_decision_witness :
    (([("--c", redTok 50)] : Registry).map Prod.fst).Nodup
    ∧ ("#ff0000", ["--c"]) ∈ groupByResolved [("--c", redTok 50)]
    ∧ "--c" ∈ (("#ff0000", ["--c"]) : String × List String).2
    ∧ (∃ syntheticName : String,
        (lookup (generateMangledNames [("--c", redTok 50)] "--_").1 "--c").map
            (·.mangledName)
          = (lookup [("--c", redTok 50)] "--c").map (fun _ =>
              if (syntheticName.length + 2
                    + (("#ff0000", ["--c"]) : String × List String).1.length + 1)
                  + ((("#ff0000", ["--c"]) : String × List String).2.map (fun v =>
                      ((lookup [("--c", redTok 50)] v).map
                        (·.usageCount)).getD 0)).sum
                    * (5 + syntheticName.length + 1)
                < ((("#ff0000", ["--c"]) : String × List String).2.map (fun v =>
                      ((lookup [("--c", redTok 50)] v).map
                        (·.usageCount)).getD 0)).sum
                    * (("#ff0000", ["--c"]) : String × List String).1.length
              then some syntheticName else none)) := by
  refine ⟨by decide, by decide, by decide,
    C4_cost_decision [("--c", redTok 50)] "--_" (by decide)
      ("#ff0000", ["--c"]) (by decide) "--c" (by decide)⟩

end TokenShaker
